import Mathlib

/-!
Verification development for the rn-iconify native module.

The repository fragment under version control contains only the native-bridge
declaration headers (`src/ios/RNIconifySpec.h`, `src/ios/RNIconify-Bridging-Header.h`):
the protocol `NativeRNIconifySpec` with its five operations and the promise
callback types.  The icon cache manager behind that interface is not part of
the fragment, so its behaviour is modelled here from the specification
(`spec.md`), faithfully to the spec's words, while the protocol and callback
declarations are embedded directly from the headers.
-/

namespace RNIconify

/-- Modelled from the spec (§3 Data Model): a cache entry carries an opaque
payload whose only relevant attribute is its size in bytes, a last-access
timestamp and an insertion timestamp.  The payload bytes themselves are
irrelevant to every claim, so only the size is kept. -/
structure CacheEntry where
  size : Nat
  lastAccess : Nat
  insertedAt : Nat
  deriving Repr, DecidableEq

/-- The CacheStore: a keyed association list from identifier to entry. -/
abbrev Store := List (String × CacheEntry)

/-- Sum of entry sizes currently in the store (`totalBytes` of the stats). -/
def totalBytes : Store → Nat
  | [] => 0
  | p :: rest => p.2.size + totalBytes rest

/-- Lookup of the committed entry for an identifier. -/
def lookupEntry : Store → String → Option CacheEntry
  | [], _ => none
  | (k, e) :: rest, i => if k = i then some e else lookupEntry rest i

/-- Remove every binding of the given identifier from the store. -/
def eraseKey : Store → String → Store
  | [], _ => []
  | p :: rest, i => if p.1 = i then eraseKey rest i else p :: eraseKey rest i

/-- Insert (or replace) the binding for an identifier. -/
def insertEntry (store : Store) (i : String) (e : CacheEntry) : Store :=
  (i, e) :: eraseKey store i

/-- Modelled from the spec (§3): an in-flight fetch record, tagged with the
generation counter current at dispatch time and carrying the wait list of
pending callers awaiting this fetch (request coalescing). -/
structure InFlightEntry where
  icon : String
  gen : Nat
  waiters : List Nat
  deriving Repr, DecidableEq

/-- Membership of an identifier in the InFlightSet. -/
def inFlightMem (fl : List InFlightEntry) (i : String) : Bool :=
  fl.any (fun e => e.icon == i)

/-- Attach a caller to the wait list of an identifier already in flight. -/
def attachWaiter (fl : List InFlightEntry) (i : String) (c : Nat) : List InFlightEntry :=
  fl.map (fun e => if e.icon == i then { e with waiters := c :: e.waiters } else e)

/-- Remove an in-flight record (identifier at a given generation). -/
def removeInFlight (fl : List InFlightEntry) (i : String) (g : Nat) : List InFlightEntry :=
  fl.filter (fun e => !(e.icon == i && e.gen == g))

/-- Modelled from the spec (§2, §3, §5): the whole state owned by the icon
cache manager — configuration (capacity bound, fatal-on-any-failure mode),
the CacheStore, the InFlightSet, the clear generation counter, the cumulative
Stats counters, and a logical clock supplying timestamps. -/
structure ManagerState where
  capacity : Nat
  fatalMode : Bool
  store : Store
  inFlight : List InFlightEntry
  generation : Nat
  hits : Nat
  misses : Nat
  evictions : Nat
  clock : Nat
  deriving Repr, DecidableEq

/-- The record resolved by `getCacheStats`. -/
structure CacheStats where
  count : Nat
  totalBytes : Nat
  hits : Nat
  misses : Nat
  evictions : Nat
  deriving Repr, DecidableEq

/-- Modelled from the spec (§4.1 getCacheStats, §3 Stats): a pure read,
computed on demand from the CacheStore and the running counters. -/
def getCacheStats (s : ManagerState) : CacheStats :=
  ⟨s.store.length, totalBytes s.store, s.hits, s.misses, s.evictions⟩

/-- The error kinds of §7. -/
inductive IconError
  | fetchFailed
  | capacityMisconfigured
  | invalidIdentifier
  deriving Repr, DecidableEq

/-- Modelled from the spec (§7): an identifier is invalid when empty or
malformed; the spec names only emptiness concretely, so validity is
non-emptiness. -/
def isValidIdentifier (i : String) : Bool :=
  !(i.isEmpty)

/-- Modelled from the spec (§4.1 isCached): synchronous lookup, true iff the
identifier currently has a committed entry in the CacheStore. -/
def isCached (s : ManagerState) (i : String) : Bool :=
  (lookupEntry s.store i).isSome

/-- The isCached operation as a state transformer, to make its frame
explicit: it returns the boolean and leaves the manager state untouched
(spec §4.1: must not trigger a fetch, increments neither counter). -/
def isCachedOp (s : ManagerState) (i : String) : Bool × ManagerState :=
  (isCached s i, s)

/-- Modelled from the spec (§4.1 clearCache): empties the CacheStore, resets
the cumulative counters to zero, and increments the generation counter so
that in-flight fetches from before the clear become stale.  In-flight
records are left to run to completion (soft cancellation, §5). -/
def clearCache (s : ManagerState) : ManagerState :=
  { s with store := [], hits := 0, misses := 0, evictions := 0,
           generation := s.generation + 1 }

/-- clearCache at the promise boundary: it always resolves with success. -/
def clearCacheOp (s : ManagerState) : ManagerState × Except IconError Unit :=
  (clearCache s, Except.ok ())

/-- Modelled from the spec (§7 CapacityMisconfigured): the manager refuses to
initialize on a non-positive capacity bound; otherwise it starts empty. -/
def initManager (capacity : Nat) (fatalMode : Bool) : Except IconError ManagerState :=
  if capacity = 0 then Except.error IconError.capacityMisconfigured
  else Except.ok ⟨capacity, fatalMode, [], [], 0, 0, 0, 0, 0⟩

/-! ### Eviction, modelled from the spec (§4.1 Eviction policy) -/

/-- Strict LRU order on entries: earlier last-access first, ties broken by
the older insertion timestamp. -/
def lruLess (a b : String × CacheEntry) : Bool :=
  decide (a.2.lastAccess < b.2.lastAccess ∨
    (a.2.lastAccess = b.2.lastAccess ∧ a.2.insertedAt < b.2.insertedAt))

/-- Keep the older of two candidates for eviction. -/
def pickOlder (best x : String × CacheEntry) : String × CacheEntry :=
  if lruLess x best then x else best

/-- The eviction victim: the least-recently-used entry of the store. -/
def findVictim : Store → Option (String × CacheEntry)
  | [] => none
  | e :: rest => some (rest.foldl pickOlder e)

/-- Modelled from the spec (§4.1): evict one entry — the LRU victim — and
increment the eviction counter. -/
def evictOnce (s : ManagerState) : ManagerState :=
  match findVictim s.store with
  | none => s
  | some v => { s with store := eraseKey s.store v.1, evictions := s.evictions + 1 }

/-- Evict one entry at a time until the total size is within the capacity
bound; the fuel argument bounds the number of iterations. -/
def evictLoop : Nat → ManagerState → ManagerState
  | 0, s => s
  | Nat.succ n, s =>
      if totalBytes s.store ≤ s.capacity then s
      else evictLoop n (evictOnce s)

/-- Run eviction to completion: at most one eviction per stored entry is
ever needed, so the store length is sufficient fuel. -/
def runEviction (s : ManagerState) : ManagerState :=
  evictLoop s.store.length s

/-! ### Prefetch, modelled from the spec (§4.1 prefetchIcons, §5) -/

/-- Outcome of one underlying asynchronous fetch. -/
inductive FetchOutcome
  | success (size : Nat)
  | failure
  deriving Repr, DecidableEq

/-- Modelled from the spec (§4.1 prefetchIcons, §7): the synchronous start
of a prefetch call.  Invalid identifiers are rejected before dispatch,
surfacing `InvalidIdentifier` immediately and leaving the state untouched.
Otherwise duplicates and already-cached identifiers are filtered out; each
remaining identifier not already in flight is registered in the InFlightSet
(tagged with the current generation) and dispatched, and each remaining
identifier already in flight has this caller attached to the existing wait
list instead.  Returns the new state and the list of dispatched fetches. -/
def prefetchStart (caller : Nat) (icons : List String) (s : ManagerState) :
    ManagerState × Except IconError (List String) :=
  if icons.any (fun i => !(isValidIdentifier i)) then
    (s, Except.error IconError.invalidIdentifier)
  else
    let uniq := icons.dedup
    let toFetch := uniq.filter (fun i => !(isCached s i))
    let cachedCount := (uniq.filter (fun i => isCached s i)).length
    let toDispatch := toFetch.filter (fun i => !(inFlightMem s.inFlight i))
    let toAttach := toFetch.filter (fun i => inFlightMem s.inFlight i)
    let newEntries := toDispatch.map (fun i => InFlightEntry.mk i s.generation [caller])
    ({ s with
        hits := s.hits + cachedCount,
        inFlight := newEntries ++
          toAttach.foldl (fun fl i => attachWaiter fl i caller) s.inFlight },
     Except.ok toDispatch)

/-- Modelled from the spec (§4.1): completion of one in-flight fetch that
was dispatched at generation `g`.  A completion from a stale generation is
discarded rather than committed; a current-generation success constructs a
CacheEntry, commits it to the CacheStore and restores the capacity
invariant by eviction; a current-generation failure only counts a miss. -/
def fetchComplete (icon : String) (g : Nat) (outcome : FetchOutcome)
    (s : ManagerState) : ManagerState :=
  if g = s.generation then
    match outcome with
    | FetchOutcome.success size =>
        runEviction { s with
          store := insertEntry s.store icon ⟨size, s.clock, s.clock⟩,
          inFlight := removeInFlight s.inFlight icon g,
          clock := s.clock + 1 }
    | FetchOutcome.failure =>
        { s with inFlight := removeInFlight s.inFlight icon g,
                 misses := s.misses + 1 }
  else
    { s with inFlight := removeInFlight s.inFlight icon g }

/-- The generation tag of the (first) in-flight record for an identifier,
or the given default when the identifier is not in flight. -/
def genOf : List InFlightEntry → String → Nat → Nat
  | [], _, dflt => dflt
  | e :: rest, i, dflt => if e.icon = i then e.gen else genOf rest i dflt

/-- Deliver the completions of a list of pending fetches, in order, each
tagged with the generation given by `gen`. -/
def runPending (gen : String → Nat) (outcomes : String → FetchOutcome)
    (pending : List String) (s : ManagerState) : ManagerState :=
  pending.foldl (fun st i => fetchComplete i (gen i) (outcomes i) st) s

/-- The identifiers a prefetch call must wait on: the input deduplicated
and restricted to identifiers not already cached — both the fetches this
call dispatches and the in-flight fetches it coalesces onto. -/
def pendingOf (icons : List String) (s : ManagerState) : List String :=
  (icons.dedup).filter (fun i => !(isCached s i))

/-- Whether any dispatched fetch failed. -/
def anyFailure (outcomes : String → FetchOutcome) (dispatched : List String) : Bool :=
  dispatched.any (fun i => outcomes i == FetchOutcome.failure)

/-- Total number of bytes the successful fetches of a dispatch list add. -/
def fetchedBytes (outcomes : String → FetchOutcome) : List String → Nat
  | [] => 0
  | i :: rest =>
      (match outcomes i with
       | FetchOutcome.success n => n
       | FetchOutcome.failure => 0) + fetchedBytes outcomes rest

/-- The dispatch list a valid prefetch call produces: the input deduplicated,
restricted to identifiers neither cached nor already in flight. -/
def dispatchOf (icons : List String) (s : ManagerState) : List String :=
  ((icons.dedup).filter (fun i => !(isCached s i))).filter
    (fun i => !(inFlightMem s.inFlight i))

/-- The InFlightSet a valid prefetch call leaves for the identifiers that
were already in flight: the caller is attached to each existing wait list. -/
def attachOf (c : Nat) (icons : List String) (s : ManagerState) : List InFlightEntry :=
  (((icons.dedup).filter (fun i => !(isCached s i))).filter
    (fun i => inFlightMem s.inFlight i)).foldl
      (fun fl i => attachWaiter fl i c) s.inFlight

/-- Modelled from the spec (§4.1, §5): a whole prefetch call run to
quiescence — the call suspends until every identifier of the input has
reached a terminal state, so the completion of every pending (non-cached)
input identifier is delivered before the call resolves: the fetches this
call dispatched as well as the earlier in-flight fetches it coalesced
onto, each completing with the generation tag its in-flight record
carries and the outcome given by the `outcomes` oracle.  The call
resolves with best-effort success when fatal mode is off; with fatal mode
on it rejects if any awaited fetch failed. -/
def prefetchRun (caller : Nat) (icons : List String)
    (outcomes : String → FetchOutcome) (s : ManagerState) :
    ManagerState × Except IconError Unit :=
  match prefetchStart caller icons s with
  | (s1, Except.error e) => (s1, Except.error e)
  | (s1, Except.ok _) =>
      let pending := pendingOf icons s
      let sF := runPending (fun i => genOf s1.inFlight i s1.generation)
        outcomes pending s1
      if s.fatalMode && anyFailure outcomes pending then
        (sF, Except.error IconError.fetchFailed)
      else
        (sF, Except.ok ())

/-! ### Boundary declarations, embedded from the source headers -/

/-- Embedded from `src/ios/RNIconify-Bridging-Header.h`: the reject callback
`RCTPromiseRejectBlock` takes a string code, a string message (and an
optional platform error object, omitted here as opaque).  Every value sent
down the reject path therefore consists of a code and a message. -/
structure RejectArgs where
  code : String
  message : String
  deriving Repr, DecidableEq

/-- Modelled from the spec (§6, §7): the mapping from each error kind of the
missing implementation to the stable code and human-readable message carried
across the reject boundary. -/
def rejectArgsOf : IconError → RejectArgs
  | IconError.fetchFailed => ⟨"FETCH_FAILED", "Failed to fetch icon asset"⟩
  | IconError.capacityMisconfigured =>
      ⟨"CAPACITY_MISCONFIGURED", "Invalid cache capacity bound"⟩
  | IconError.invalidIdentifier =>
      ⟨"INVALID_IDENTIFIER", "Empty or malformed icon identifier"⟩

/-- Shape of one method declaration of the `NativeRNIconifySpec` protocol:
whether it takes a resolve block, a reject block, and whether it returns its
value directly (synchronously). -/
structure MethodDecl where
  name : String
  hasResolve : Bool
  hasReject : Bool
  returnsDirect : Bool
  deriving Repr, DecidableEq

/-- Embedded from `src/ios/RNIconifySpec.h`: the five operations of the
`NativeRNIconifySpec` protocol with their declared callback parameters.
`prefetchIcons`, `getCacheStats` and `clearCache` each take both an
`RCTPromiseResolveBlock` and an `RCTPromiseRejectBlock`; `isCached` returns
an `NSNumber *` and `getConstants` an `NSDictionary *` directly. -/
def nativeRNIconifySpec : List MethodDecl :=
  [⟨"prefetchIcons", true, true, false⟩,
   ⟨"getCacheStats", true, true, false⟩,
   ⟨"clearCache", true, true, false⟩,
   ⟨"isCached", false, false, true⟩,
   ⟨"getConstants", false, false, true⟩]

/-! ### Concrete states and oracles used to instantiate the theorems -/

/-- A small manager state: capacity 300 bytes, one committed 100-byte entry. -/
def sampleState : ManagerState :=
  ⟨300, false, [("a", ⟨100, 0, 0⟩)], [], 0, 0, 0, 0, 1⟩

/-- A freshly initialized manager with a 100-byte capacity bound. -/
def cexState : ManagerState :=
  ⟨100, false, [], [], 0, 0, 0, 0, 0⟩

/-- An oracle under which every fetch succeeds with a 100-byte asset. -/
def outcomesAll100 : String → FetchOutcome :=
  fun _ => FetchOutcome.success 100

/-- An oracle under which the fetch for "y" succeeds and all others fail. -/
def outcomesXY : String → FetchOutcome :=
  fun i => if i == "y" then FetchOutcome.success 100 else FetchOutcome.failure

/-- A reachable state with a stale in-flight fetch: a prefetch of "a" is
dispatched at generation 0, then the cache is cleared, taking the manager
to generation 1 while the fetch for "a" is still in flight with tag 0. -/
def staleState : ManagerState :=
  clearCache (prefetchStart 1 ["a"] cexState).1

/-- A state with three 100-byte entries ("a" least recently used) filling a
300-byte capacity, so that any further insertion must evict. -/
def fullState : ManagerState :=
  ⟨300, false,
   [("c", ⟨100, 2, 2⟩), ("b", ⟨100, 1, 1⟩), ("a", ⟨100, 0, 0⟩)],
   [], 0, 0, 0, 0, 3⟩

/-! ### Lemmas about the store primitives -/

theorem isSome_false_iff_none (x : Option CacheEntry) :
    x.isSome = false ↔ x = none := by
  cases x <;> simp

theorem lookupEntry_eraseKey_self (store : Store) (i : String) :
    lookupEntry (eraseKey store i) i = none := by
  induction store with
  | nil => rfl
  | cons p rest ih =>
      by_cases h : p.1 = i
      · simp [eraseKey, h, ih]
      · simp [eraseKey, h, lookupEntry, ih]

theorem lookupEntry_eraseKey_ne (store : Store) (i k : String) (h : i ≠ k) :
    lookupEntry (eraseKey store k) i = lookupEntry store i := by
  induction store with
  | nil => rfl
  | cons p rest ih =>
      by_cases hp : p.1 = k
      · have hki : ¬(k = i) := fun hh => h hh.symm
        simp [eraseKey, hp, lookupEntry, hki, ih]
      · simp only [eraseKey, if_neg hp, lookupEntry, ih]

theorem lookupEntry_eraseKey_none (store : Store) (i k : String)
    (h : lookupEntry store i = none) : lookupEntry (eraseKey store k) i = none := by
  by_cases hik : i = k
  · subst hik; exact lookupEntry_eraseKey_self store i
  · rw [lookupEntry_eraseKey_ne store i k hik]; exact h

theorem lookupEntry_insertEntry_self (store : Store) (i : String) (e : CacheEntry) :
    lookupEntry (insertEntry store i e) i = some e := by
  simp [insertEntry, lookupEntry]

theorem lookupEntry_insertEntry_ne (store : Store) (i k : String) (e : CacheEntry)
    (h : i ≠ k) :
    lookupEntry (insertEntry store k e) i = lookupEntry store i := by
  have hk : k ≠ i := fun hh => h hh.symm
  simp only [insertEntry, lookupEntry, if_neg hk]
  exact lookupEntry_eraseKey_ne store i k h

theorem lookupEntry_isSome_iff (store : Store) (i : String) :
    (lookupEntry store i).isSome = true ↔ ∃ e, (i, e) ∈ store := by
  induction store with
  | nil => simp [lookupEntry]
  | cons p rest ih =>
      obtain ⟨k, e⟩ := p
      by_cases h : k = i
      · subst h
        have hl : lookupEntry ((k, e) :: rest) k = some e := by simp [lookupEntry]
        rw [hl]
        simp only [Option.isSome_some, true_iff]
        exact ⟨e, List.mem_cons_self _ _⟩
      · simp only [lookupEntry, if_neg h, ih, List.mem_cons, Prod.mk.injEq]
        constructor
        · rintro ⟨e', he'⟩; exact ⟨e', Or.inr he'⟩
        · rintro ⟨e', he' | he'⟩
          · exact absurd he'.1.symm h
          · exact ⟨e', he'⟩

theorem totalBytes_eraseKey_le (store : Store) (i : String) :
    totalBytes (eraseKey store i) ≤ totalBytes store := by
  induction store with
  | nil => exact Nat.le_refl _
  | cons p rest ih =>
      by_cases h : p.1 = i <;> simp [eraseKey, h, totalBytes] <;> omega

theorem totalBytes_insertEntry_le (store : Store) (i : String) (e : CacheEntry) :
    totalBytes (insertEntry store i e) ≤ e.size + totalBytes store := by
  have := totalBytes_eraseKey_le store i
  simp only [insertEntry, totalBytes]
  omega

theorem length_eraseKey_le (store : Store) (i : String) :
    (eraseKey store i).length ≤ store.length := by
  induction store with
  | nil => exact Nat.le_refl _
  | cons p rest ih =>
      by_cases h : p.1 = i <;> simp [eraseKey, h] <;> omega

theorem length_eraseKey_lt (store : Store) (i : String)
    (h : ∃ e, (i, e) ∈ store) : (eraseKey store i).length < store.length := by
  induction store with
  | nil => obtain ⟨e, he⟩ := h; cases he
  | cons p rest ih =>
      by_cases hp : p.1 = i
      · have := length_eraseKey_le rest i
        simp [eraseKey, hp]
        omega
      · obtain ⟨e, he⟩ := h
        rcases List.mem_cons.mp he with heq | hmem
        · exact absurd (congrArg Prod.fst heq).symm hp
        · have := ih ⟨e, hmem⟩
          simp [eraseKey, hp]
          omega

/-! ### Lemmas about the LRU order and eviction -/

theorem lruLess_irrefl (a : String × CacheEntry) : lruLess a a = false := by
  simp [lruLess]

theorem lruLess_true_iff (a b : String × CacheEntry) :
    lruLess a b = true ↔
      (a.2.lastAccess < b.2.lastAccess ∨
        (a.2.lastAccess = b.2.lastAccess ∧ a.2.insertedAt < b.2.insertedAt)) := by
  simp [lruLess]

theorem lruLess_false_iff (a b : String × CacheEntry) :
    lruLess a b = false ↔
      ¬(a.2.lastAccess < b.2.lastAccess ∨
        (a.2.lastAccess = b.2.lastAccess ∧ a.2.insertedAt < b.2.insertedAt)) := by
  simp [lruLess]

theorem lruLess_shift_left (x b r : String × CacheEntry)
    (h1 : lruLess x b = true) (h2 : lruLess x r = false) : lruLess b r = false := by
  rw [lruLess_true_iff] at h1
  rw [lruLess_false_iff] at h2 ⊢
  omega

theorem lruLess_not_trans (x b r : String × CacheEntry)
    (h1 : lruLess x b = false) (h2 : lruLess b r = false) : lruLess x r = false := by
  rw [lruLess_false_iff] at h1 h2 ⊢
  omega

theorem foldl_pickOlder_mem :
    ∀ (l : List (String × CacheEntry)) (b : String × CacheEntry),
      l.foldl pickOlder b = b ∨ l.foldl pickOlder b ∈ l := by
  intro l
  induction l with
  | nil => intro b; exact Or.inl rfl
  | cons x rest ih =>
      intro b
      simp only [List.foldl_cons]
      rcases ih (pickOlder b x) with h | h
      · rw [h]
        by_cases hc : lruLess x b = true
        · simp [pickOlder, hc]
        · simp [pickOlder, hc]
      · exact Or.inr (List.mem_cons_of_mem _ h)

theorem foldl_pickOlder_min :
    ∀ (l : List (String × CacheEntry)) (b : String × CacheEntry),
      lruLess b (l.foldl pickOlder b) = false ∧
        ∀ y ∈ l, lruLess y (l.foldl pickOlder b) = false := by
  intro l
  induction l with
  | nil =>
      intro b
      exact ⟨lruLess_irrefl b, by simp⟩
  | cons x rest ih =>
      intro b
      simp only [List.foldl_cons]
      by_cases hc : lruLess x b = true
      · have hx : pickOlder b x = x := by simp [pickOlder, hc]
        rw [hx]
        obtain ⟨hb, hall⟩ := ih x
        refine ⟨lruLess_shift_left x b _ hc hb, ?_⟩
        intro y hy
        rcases List.mem_cons.mp hy with rfl | hy'
        · exact hb
        · exact hall y hy'
      · have hcf : lruLess x b = false := Bool.eq_false_iff.mpr hc
        have hx : pickOlder b x = b := by simp [pickOlder, hc]
        rw [hx]
        obtain ⟨hb, hall⟩ := ih b
        refine ⟨hb, ?_⟩
        intro y hy
        rcases List.mem_cons.mp hy with rfl | hy'
        · exact lruLess_not_trans y b _ hcf hb
        · exact hall y hy'

theorem findVictim_mem (store : Store) (v : String × CacheEntry)
    (h : findVictim store = some v) : v ∈ store := by
  cases store with
  | nil => cases h
  | cons e rest =>
      simp only [findVictim, Option.some.injEq] at h
      rcases foldl_pickOlder_mem rest e with h' | h'
      · rw [← h, h']; exact List.mem_cons_self _ _
      · rw [← h]; exact List.mem_cons_of_mem _ h'

theorem findVictim_min (store : Store) (v : String × CacheEntry)
    (h : findVictim store = some v) : ∀ x ∈ store, lruLess x v = false := by
  cases store with
  | nil => cases h
  | cons e rest =>
      simp only [findVictim, Option.some.injEq] at h
      subst h
      intro x hx
      obtain ⟨hb, hall⟩ := foldl_pickOlder_min rest e
      rcases List.mem_cons.mp hx with rfl | hx'
      · exact hb
      · exact hall x hx'

theorem findVictim_isSome (store : Store) (h : store ≠ []) :
    ∃ v, findVictim store = some v := by
  cases store with
  | nil => exact absurd rfl h
  | cons e rest => exact ⟨rest.foldl pickOlder e, rfl⟩

theorem evictOnce_fields (s : ManagerState) :
    (evictOnce s).capacity = s.capacity ∧ (evictOnce s).generation = s.generation ∧
    (evictOnce s).hits = s.hits ∧ (evictOnce s).misses = s.misses ∧
    (evictOnce s).clock = s.clock ∧ (evictOnce s).inFlight = s.inFlight ∧
    (evictOnce s).fatalMode = s.fatalMode := by
  unfold evictOnce
  cases findVictim s.store <;> simp

theorem evictOnce_store_length (s : ManagerState) (h : s.store ≠ []) :
    (evictOnce s).store.length < s.store.length := by
  obtain ⟨v, hv⟩ := findVictim_isSome s.store h
  have hmem := findVictim_mem s.store v hv
  unfold evictOnce
  rw [hv]
  exact length_eraseKey_lt s.store v.1 ⟨v.2, by simpa using hmem⟩

theorem totalBytes_pos_ne_nil (store : Store) (h : 0 < totalBytes store) :
    store ≠ [] := by
  intro hn
  subst hn
  simp [totalBytes] at h

theorem evictLoop_fields :
    ∀ (n : Nat) (s : ManagerState),
      (evictLoop n s).capacity = s.capacity ∧
      (evictLoop n s).generation = s.generation ∧
      (evictLoop n s).hits = s.hits ∧ (evictLoop n s).misses = s.misses ∧
      (evictLoop n s).clock = s.clock ∧ (evictLoop n s).inFlight = s.inFlight ∧
      (evictLoop n s).fatalMode = s.fatalMode := by
  intro n
  induction n with
  | zero => intro s; exact ⟨rfl, rfl, rfl, rfl, rfl, rfl, rfl⟩
  | succ n ih =>
      intro s
      by_cases hc : totalBytes s.store ≤ s.capacity
      · simp [evictLoop, hc]
      · simp only [evictLoop, if_neg hc]
        obtain ⟨h1, h2, h3, h4, h5, h6, h7⟩ := ih (evictOnce s)
        obtain ⟨g1, g2, g3, g4, g5, g6, g7⟩ := evictOnce_fields s
        exact ⟨h1.trans g1, h2.trans g2, h3.trans g3, h4.trans g4,
               h5.trans g5, h6.trans g6, h7.trans g7⟩

theorem evictLoop_le :
    ∀ (n : Nat) (s : ManagerState), s.store.length ≤ n →
      totalBytes (evictLoop n s).store ≤ s.capacity := by
  intro n
  induction n with
  | zero =>
      intro s h
      have hnil : s.store = [] := List.length_eq_zero.mp (Nat.le_zero.mp h)
      simp [evictLoop, hnil, totalBytes]
  | succ n ih =>
      intro s h
      by_cases hc : totalBytes s.store ≤ s.capacity
      · simpa [evictLoop, if_pos hc] using hc
      · simp only [evictLoop, if_neg hc]
        have hpos : 0 < totalBytes s.store := by omega
        have hne := totalBytes_pos_ne_nil s.store hpos
        have hlen := evictOnce_store_length s hne
        have hcap := (evictOnce_fields s).1
        have := ih (evictOnce s) (by omega)
        rw [hcap] at this
        exact this

theorem runEviction_le (s : ManagerState) :
    totalBytes (runEviction s).store ≤ s.capacity :=
  evictLoop_le s.store.length s (Nat.le_refl _)

theorem runEviction_fields (s : ManagerState) :
    (runEviction s).capacity = s.capacity ∧ (runEviction s).generation = s.generation ∧
    (runEviction s).hits = s.hits ∧ (runEviction s).misses = s.misses ∧
    (runEviction s).clock = s.clock ∧ (runEviction s).inFlight = s.inFlight ∧
    (runEviction s).fatalMode = s.fatalMode :=
  evictLoop_fields s.store.length s

theorem runEviction_of_le (s : ManagerState)
    (h : totalBytes s.store ≤ s.capacity) : runEviction s = s := by
  unfold runEviction
  cases hs : s.store with
  | nil => rfl
  | cons p rest =>
      rw [List.length_cons]
      simp [evictLoop, h]

theorem isCached_false_evictOnce (s : ManagerState) (i : String)
    (h : isCached s i = false) : isCached (evictOnce s) i = false := by
  unfold evictOnce
  cases hv : findVictim s.store with
  | none => exact h
  | some v =>
      simp only [isCached, isSome_false_iff_none] at h ⊢
      exact lookupEntry_eraseKey_none s.store i v.1 h

theorem isCached_false_evictLoop :
    ∀ (n : Nat) (s : ManagerState) (i : String), isCached s i = false →
      isCached (evictLoop n s) i = false := by
  intro n
  induction n with
  | zero => intro s i h; exact h
  | succ n ih =>
      intro s i h
      by_cases hc : totalBytes s.store ≤ s.capacity
      · simpa [evictLoop, if_pos hc] using h
      · simp only [evictLoop, if_neg hc]
        exact ih (evictOnce s) i (isCached_false_evictOnce s i h)

/-! ### Lemmas about fetch completion and prefetch -/

theorem fetchComplete_fields (i : String) (g : Nat) (o : FetchOutcome)
    (s : ManagerState) :
    (fetchComplete i g o s).generation = s.generation ∧
    (fetchComplete i g o s).capacity = s.capacity ∧
    (fetchComplete i g o s).fatalMode = s.fatalMode := by
  unfold fetchComplete
  by_cases h : g = s.generation
  · rw [if_pos h]
    cases o with
    | success n =>
        obtain ⟨h1, h2, _, _, _, _, h7⟩ := runEviction_fields
          { s with store := insertEntry s.store i ⟨n, s.clock, s.clock⟩,
                   inFlight := removeInFlight s.inFlight i g,
                   clock := s.clock + 1 }
        exact ⟨h2, h1, h7⟩
    | failure => exact ⟨rfl, rfl, rfl⟩
  · rw [if_neg h]
    exact ⟨rfl, rfl, rfl⟩

theorem runPending_generation (gen : String → Nat) (outcomes : String → FetchOutcome) :
    ∀ (d : List String) (s : ManagerState),
      (runPending gen outcomes d s).generation = s.generation := by
  intro d
  induction d with
  | nil => intro s; rfl
  | cons j d ih =>
      intro s
      have h : runPending gen outcomes (j :: d) s =
          runPending gen outcomes d (fetchComplete j (gen j) (outcomes j) s) := rfl
      rw [h, ih, (fetchComplete_fields j (gen j) (outcomes j) s).1]

theorem genOf_map_found (g c0 : Nat) :
    ∀ (d : List String) (rest : List InFlightEntry) (j : String) (dflt : Nat),
      j ∈ d →
      genOf ((d.map fun i => InFlightEntry.mk i g [c0]) ++ rest) j dflt = g := by
  intro d
  induction d with
  | nil => intro rest j dflt h; cases h
  | cons i d ih =>
      intro rest j dflt h
      by_cases hij : i = j
      · simp [genOf, hij]
      · have hj : j ∈ d := by
          rcases List.mem_cons.mp h with h' | h'
          · exact absurd h'.symm hij
          · exact h'
        simp only [List.map_cons, List.cons_append, genOf, if_neg hij]
        exact ih rest j dflt hj

theorem genOf_append_skip :
    ∀ (l1 l2 : List InFlightEntry) (j : String) (dflt : Nat),
      (∀ e ∈ l1, e.icon ≠ j) →
      genOf (l1 ++ l2) j dflt = genOf l2 j dflt := by
  intro l1
  induction l1 with
  | nil => intro l2 j dflt _; rfl
  | cons e l1 ih =>
      intro l2 j dflt h
      have he : e.icon ≠ j := h e (List.mem_cons_self _ _)
      simp only [List.cons_append, genOf, if_neg he]
      exact ih l2 j dflt (fun e' he' => h e' (List.mem_cons_of_mem _ he'))

theorem genOf_cons (e : InFlightEntry) (rest : List InFlightEntry)
    (j : String) (dflt : Nat) :
    genOf (e :: rest) j dflt = if e.icon = j then e.gen else genOf rest j dflt := rfl

theorem genOf_attachWaiter (a : String) (c0 : Nat) (j : String) (dflt : Nat) :
    ∀ fl : List InFlightEntry,
      genOf (attachWaiter fl a c0) j dflt = genOf fl j dflt := by
  intro fl
  induction fl with
  | nil => rfl
  | cons e rest ih =>
      have hstep : attachWaiter (e :: rest) a c0 =
          (if e.icon == a then { e with waiters := c0 :: e.waiters } else e) ::
            attachWaiter rest a c0 := rfl
      rw [hstep, genOf_cons, genOf_cons, ih]
      by_cases hc : (e.icon == a) = true
      · rw [if_pos hc]
      · rw [if_neg hc]

theorem genOf_attachFold (c0 : Nat) (j : String) (dflt : Nat) :
    ∀ (l : List String) (fl : List InFlightEntry),
      genOf (l.foldl (fun acc i => attachWaiter acc i c0) fl) j dflt =
        genOf fl j dflt := by
  intro l
  induction l with
  | nil => intro fl; rfl
  | cons a l ih =>
      intro fl
      simp only [List.foldl_cons]
      rw [ih (attachWaiter fl a c0), genOf_attachWaiter]

theorem pendingOf_nodup (icons : List String) (s : ManagerState) :
    (pendingOf icons s).Nodup :=
  (List.nodup_dedup icons).filter _

theorem mem_pendingOf (icons : List String) (s : ManagerState) (i : String) :
    i ∈ pendingOf icons s ↔ (i ∈ icons ∧ isCached s i = false) := by
  simp [pendingOf, List.mem_filter, List.mem_dedup, Bool.not_eq_true']

theorem prefetchStart_valid (c : Nat) (icons : List String) (s : ManagerState)
    (h : icons.all (fun i => isValidIdentifier i) = true) :
    (prefetchStart c icons s).2 = Except.ok (dispatchOf icons s) ∧
    (prefetchStart c icons s).1.store = s.store ∧
    (prefetchStart c icons s).1.generation = s.generation ∧
    (prefetchStart c icons s).1.capacity = s.capacity ∧
    (prefetchStart c icons s).1.fatalMode = s.fatalMode ∧
    (prefetchStart c icons s).1.misses = s.misses ∧
    (prefetchStart c icons s).1.inFlight =
      (dispatchOf icons s).map (fun i => InFlightEntry.mk i s.generation [c]) ++
        attachOf c icons s := by
  have hany : icons.any (fun i => !(isValidIdentifier i)) = false := by
    by_cases ha : icons.any (fun i => !(isValidIdentifier i)) = true
    · exfalso
      obtain ⟨i, hi, hv⟩ := List.any_eq_true.mp ha
      have hval := List.all_eq_true.mp h i hi
      rw [hval] at hv
      cases hv
    · exact Bool.eq_false_iff.mpr ha
  have hcond : ¬(icons.any (fun i => !(isValidIdentifier i)) = true) := by
    rw [hany]; exact Bool.false_ne_true
  unfold prefetchStart
  rw [if_neg hcond]
  exact ⟨rfl, rfl, rfl, rfl, rfl, rfl, rfl⟩

theorem dispatchOf_nodup (icons : List String) (s : ManagerState) :
    (dispatchOf icons s).Nodup :=
  ((List.nodup_dedup icons).filter _).filter _

theorem mem_dispatchOf (icons : List String) (s : ManagerState) (i : String) :
    i ∈ dispatchOf icons s ↔
      (i ∈ icons ∧ isCached s i = false ∧ inFlightMem s.inFlight i = false) := by
  simp only [dispatchOf, List.mem_filter, List.mem_dedup, Bool.not_eq_true']
  tauto

theorem runPending_commits (gen : String → Nat) (outcomes : String → FetchOutcome) :
    ∀ (d : List String) (st : ManagerState),
      d.Nodup →
      totalBytes st.store + fetchedBytes outcomes d ≤ st.capacity →
      ∀ i, ((isCached st i = true ∧ i ∉ d) ∨
            (i ∈ d ∧ gen i = st.generation ∧
              ∃ n, outcomes i = FetchOutcome.success n)) →
        isCached (runPending gen outcomes d st) i = true := by
  intro d
  induction d with
  | nil =>
      intro st _ _ i hi
      rcases hi with ⟨hc, _⟩ | ⟨hmem, _⟩
      · exact hc
      · cases hmem
  | cons j d ih =>
      intro st hnd hfit i hi
      obtain ⟨hjd, hndd⟩ := List.nodup_cons.mp hnd
      show isCached (runPending gen outcomes d
        (fetchComplete j (gen j) (outcomes j) st)) i = true
      by_cases hgj : gen j = st.generation
      · cases ho : outcomes j with
        | success n =>
            have hinfit : totalBytes st.store + (n + fetchedBytes outcomes d) ≤
                st.capacity := by
              have he : fetchedBytes outcomes (j :: d) = n + fetchedBytes outcomes d := by
                simp [fetchedBytes, ho]
              omega
            have hins : totalBytes (insertEntry st.store j ⟨n, st.clock, st.clock⟩) ≤
                n + totalBytes st.store := by
              simpa using totalBytes_insertEntry_le st.store j ⟨n, st.clock, st.clock⟩
            have hfc : fetchComplete j (gen j) (FetchOutcome.success n) st =
                { st with store := insertEntry st.store j ⟨n, st.clock, st.clock⟩,
                          inFlight := removeInFlight st.inFlight j (gen j),
                          clock := st.clock + 1 } := by
              unfold fetchComplete
              rw [if_pos hgj]
              exact runEviction_of_le _
                (show totalBytes (insertEntry st.store j ⟨n, st.clock, st.clock⟩) ≤
                  st.capacity by omega)
            rw [hfc]
            refine ih _ hndd ?_ i ?_
            · show totalBytes (insertEntry st.store j ⟨n, st.clock, st.clock⟩) +
                fetchedBytes outcomes d ≤ st.capacity
              omega
            rcases hi with ⟨hc, hnotin⟩ | ⟨hmem, hgi, n', hsucc⟩
            · have hij : i ≠ j := fun he => hnotin (he ▸ List.mem_cons_self _ _)
              refine Or.inl ⟨?_, fun hin => hnotin (List.mem_cons_of_mem _ hin)⟩
              simpa [isCached, lookupEntry_insertEntry_ne st.store i j _ hij] using hc
            · rcases List.mem_cons.mp hmem with rfl | hmem'
              · refine Or.inl ⟨?_, hjd⟩
                simp [isCached, lookupEntry_insertEntry_self]
              · exact Or.inr ⟨hmem', hgi, n', hsucc⟩
        | failure =>
            have hfc : fetchComplete j (gen j) FetchOutcome.failure st =
                { st with inFlight := removeInFlight st.inFlight j (gen j),
                          misses := st.misses + 1 } := by
              unfold fetchComplete
              rw [if_pos hgj]
            have hfit' : fetchedBytes outcomes (j :: d) = fetchedBytes outcomes d := by
              simp [fetchedBytes, ho]
            rw [hfc]
            refine ih _ hndd ?_ i ?_
            · show totalBytes st.store + fetchedBytes outcomes d ≤ st.capacity
              rw [hfit'] at hfit
              exact hfit
            rcases hi with ⟨hc, hnotin⟩ | ⟨hmem, hgi, n', hsucc⟩
            · exact Or.inl ⟨hc, fun hin => hnotin (List.mem_cons_of_mem _ hin)⟩
            · rcases List.mem_cons.mp hmem with rfl | hmem'
              · rw [ho] at hsucc; cases hsucc
              · exact Or.inr ⟨hmem', hgi, n', hsucc⟩
      · -- stale completion: discarded, store unchanged
        have hfc : fetchComplete j (gen j) (outcomes j) st =
            { st with inFlight := removeInFlight st.inFlight j (gen j) } := by
          unfold fetchComplete
          rw [if_neg hgj]
        have hfb : fetchedBytes outcomes d ≤ fetchedBytes outcomes (j :: d) := by
          cases ho : outcomes j <;> simp only [fetchedBytes, ho] <;> omega
        rw [hfc]
        refine ih _ hndd ?_ i ?_
        · show totalBytes st.store + fetchedBytes outcomes d ≤ st.capacity
          omega
        rcases hi with ⟨hc, hnotin⟩ | ⟨hmem, hgi, n', hsucc⟩
        · exact Or.inl ⟨hc, fun hin => hnotin (List.mem_cons_of_mem _ hin)⟩
        · rcases List.mem_cons.mp hmem with rfl | hmem'
          · exact absurd hgi hgj
          · exact Or.inr ⟨hmem', hgi, n', hsucc⟩

theorem runPending_not_cached (gen : String → Nat) (outcomes : String → FetchOutcome) :
    ∀ (d : List String) (st : ManagerState) (i : String),
      outcomes i = FetchOutcome.failure → isCached st i = false →
      isCached (runPending gen outcomes d st) i = false := by
  intro d
  induction d with
  | nil => intro st i _ h; exact h
  | cons j d ih =>
      intro st i ho h
      show isCached (runPending gen outcomes d
        (fetchComplete j (gen j) (outcomes j) st)) i = false
      apply ih _ i ho
      unfold fetchComplete
      by_cases hgen : gen j = st.generation
      · rw [if_pos hgen]
        cases hoj : outcomes j with
        | success n =>
            have hij : i ≠ j := by
              intro he
              rw [he, hoj] at ho
              cases ho
            have hni : isCached
                { st with store := insertEntry st.store j ⟨n, st.clock, st.clock⟩,
                          inFlight := removeInFlight st.inFlight j (gen j),
                          clock := st.clock + 1 } i = false := by
              simp only [isCached, isSome_false_iff_none] at h ⊢
              rw [lookupEntry_insertEntry_ne st.store i j _ hij]
              exact h
            exact isCached_false_evictLoop _ _ i hni
        | failure => exact h
      · rw [if_neg hgen]
        exact h

/-! ### Claim theorems -/

/-- C5: after `clearCache` completes, the CacheStore is empty and all
cumulative Stats counters are zero, so `getCacheStats` reports count 0 and
`isCached` returns false for every identifier; `clearCache` always resolves
with success, and calling it on an already-empty cache is an observable
no-op (a second clear leaves the store and the stats output unchanged; only
the internal generation tag advances, as the spec requires of every clear). -/
theorem clearCache_resets_and_idempotent (s : ManagerState) (i : String) :
    (clearCache s).store = [] ∧
    getCacheStats (clearCache s) = ⟨0, 0, 0, 0, 0⟩ ∧
    isCached (clearCache s) i = false ∧
    (clearCacheOp s).2 = Except.ok () ∧
    (clearCacheOp (clearCache s)).2 = Except.ok () ∧
    getCacheStats (clearCache (clearCache s)) = getCacheStats (clearCache s) ∧
    (clearCache (clearCache s)).store = (clearCache s).store :=
  ⟨rfl, rfl, rfl, rfl, rfl, rfl, rfl⟩

/-- C7: `isCached` is synchronous, total and side-effect-free — it returns
true iff the identifier has a committed entry in the CacheStore, returns
false when the lookup finds nothing, leaves the whole manager state (hence
the InFlightSet: no fetch is triggered, and the counters: no hit or miss is
recorded) untouched, so repeated calls never change `getCacheStats`. -/
theorem isCached_pure_and_total (s : ManagerState) (i : String) :
    ((isCachedOp s i).1 = true ↔ ∃ e, (i, e) ∈ s.store) ∧
    (lookupEntry s.store i = none ↔ (isCachedOp s i).1 = false) ∧
    (isCachedOp s i).2 = s ∧
    getCacheStats (isCachedOp s i).2 = getCacheStats s ∧
    (isCachedOp (isCachedOp s i).2 i).1 = (isCachedOp s i).1 := by
  refine ⟨?_, ?_, rfl, rfl, rfl⟩
  · exact lookupEntry_isSome_iff s.store i
  · exact (isSome_false_iff_none _).symm

/-- C8: a prefetch input containing an empty (invalid) identifier is
rejected before any fetch dispatch: the call immediately surfaces the
`InvalidIdentifier` error and the state — in particular the InFlightSet —
is left completely unchanged. -/
theorem invalid_identifier_rejected (c : Nat) (icons : List String)
    (s : ManagerState) (h : ∃ i ∈ icons, isValidIdentifier i = false) :
    prefetchStart c icons s = (s, Except.error IconError.invalidIdentifier) ∧
    (prefetchStart c icons s).1.inFlight = s.inFlight := by
  have hany : icons.any (fun i => !(isValidIdentifier i)) = true := by
    obtain ⟨i, hi, hv⟩ := h
    exact List.any_eq_true.mpr ⟨i, hi, by simp [hv]⟩
  have h1 : prefetchStart c icons s = (s, Except.error IconError.invalidIdentifier) := by
    unfold prefetchStart
    rw [if_pos hany]
  exact ⟨h1, by rw [h1]⟩

/-- Witness for C8 at a concrete input: the empty identifier. -/
theorem invalid_identifier_rejected_witness :
    (∃ i ∈ [""], isValidIdentifier i = false) ∧
    (prefetchStart 0 [""] sampleState =
        (sampleState, Except.error IconError.invalidIdentifier) ∧
      (prefetchStart 0 [""] sampleState).1.inFlight = sampleState.inFlight) :=
  ⟨⟨"", by simp, rfl⟩,
   invalid_identifier_rejected 0 [""] sampleState ⟨"", by simp, rfl⟩⟩

/-- C9: every failure value crossing the asynchronous boundary is a pair of
a stable string error code and a human-readable message, as dictated by the
`RCTPromiseRejectBlock` shape of the bridging header: all three error kinds
map to a non-empty code and a non-empty message, and the codes are pairwise
distinct (stable identification). -/
theorem reject_path_carries_code_and_message :
    (∀ e : IconError,
        e ∈ [IconError.fetchFailed, IconError.capacityMisconfigured,
             IconError.invalidIdentifier]) ∧
    ([IconError.fetchFailed, IconError.capacityMisconfigured,
      IconError.invalidIdentifier].all
        (fun e => !((rejectArgsOf e).code.isEmpty) &&
          !((rejectArgsOf e).message.isEmpty))) = true ∧
    ([IconError.fetchFailed, IconError.capacityMisconfigured,
      IconError.invalidIdentifier].map (fun e => (rejectArgsOf e).code)).Nodup := by
  refine ⟨?_, rfl, ?_⟩
  · intro e
    cases e <;> simp
  · decide

/-- C10: in the `NativeRNIconifySpec` protocol, exactly `prefetchIcons`,
`getCacheStats` and `clearCache` are promise-based, each declared with both
a resolve and a reject callback — so each, including the pure read
`getCacheStats`, has a failure path at the native interface — while
`isCached` and `getConstants` return their values directly and take no
callback at all. -/
theorem promise_methods_have_reject_path :
    (nativeRNIconifySpec.filter (fun m => m.hasResolve && m.hasReject)).map
        (fun m => m.name) = ["prefetchIcons", "getCacheStats", "clearCache"] ∧
    (nativeRNIconifySpec.filter (fun m => m.returnsDirect)).map
        (fun m => m.name) = ["isCached", "getConstants"] ∧
    nativeRNIconifySpec.all (fun m => m.hasResolve == m.hasReject) = true ∧
    nativeRNIconifySpec.all (fun m => m.returnsDirect == (!m.hasReject)) = true :=
  ⟨rfl, rfl, rfl, rfl⟩

/-- C2: every completed mutation preserves the capacity invariant — a fetch
commit (which runs eviction), a clear, and a prefetch start all leave the
sum of entry sizes at most the capacity bound — and whenever eviction
removes an entry it removes exactly one, namely the least-recently-used
entry by last-access timestamp with ties broken by the older insertion
timestamp (no stored entry is strictly older in the `lruLess` order than
the chosen victim), incrementing the eviction counter. -/
theorem capacity_invariant_and_lru_eviction (s : ManagerState) (i : String)
    (g : Nat) (o : FetchOutcome) (c : Nat) (icons : List String)
    (hinv : totalBytes s.store ≤ s.capacity) :
    totalBytes (fetchComplete i g o s).store ≤ s.capacity ∧
    totalBytes (clearCache s).store ≤ s.capacity ∧
    totalBytes ((prefetchStart c icons s).1).store ≤ s.capacity ∧
    (∀ v, findVictim s.store = some v → ∀ x ∈ s.store, lruLess x v = false) ∧
    (∀ v, findVictim s.store = some v →
      (evictOnce s).store = eraseKey s.store v.1 ∧
      (evictOnce s).evictions = s.evictions + 1 ∧
      (evictOnce s).store.length + 1 ≤ s.store.length) := by
  refine ⟨?_, ?_, ?_, fun v hv => findVictim_min s.store v hv, fun v hv => ?_⟩
  · by_cases hgen : g = s.generation
    · cases o with
      | success n =>
          have hfc : fetchComplete i g (FetchOutcome.success n) s =
              runEviction { s with store := insertEntry s.store i ⟨n, s.clock, s.clock⟩,
                                   inFlight := removeInFlight s.inFlight i g,
                                   clock := s.clock + 1 } := by
            unfold fetchComplete
            rw [if_pos hgen]
          rw [hfc]
          exact runEviction_le _
      | failure =>
          have hfc : fetchComplete i g FetchOutcome.failure s =
              { s with inFlight := removeInFlight s.inFlight i g,
                       misses := s.misses + 1 } := by
            unfold fetchComplete
            rw [if_pos hgen]
          rw [hfc]
          exact hinv
    · have hfc : fetchComplete i g o s =
          { s with inFlight := removeInFlight s.inFlight i g } := by
        unfold fetchComplete
        rw [if_neg hgen]
      rw [hfc]
      exact hinv
  · exact Nat.zero_le _
  · by_cases hc : icons.any (fun j => !(isValidIdentifier j)) = true
    · unfold prefetchStart
      rw [if_pos hc]
      exact hinv
    · unfold prefetchStart
      rw [if_neg hc]
      exact hinv
  · have hmem := findVictim_mem s.store v hv
    have hlt := length_eraseKey_lt s.store v.1 ⟨v.2, by simpa using hmem⟩
    have h1 : (evictOnce s).store = eraseKey s.store v.1 := by
      simp [evictOnce, hv]
    have h2 : (evictOnce s).evictions = s.evictions + 1 := by
      simp [evictOnce, hv]
    exact ⟨h1, h2, by rw [h1]; omega⟩

/-- Witness for C2 at a full cache (three 100-byte entries, capacity 300). -/
theorem capacity_invariant_and_lru_eviction_witness :
    totalBytes fullState.store ≤ fullState.capacity ∧
    (totalBytes (fetchComplete "d" 0 (FetchOutcome.success 100) fullState).store ≤
        fullState.capacity ∧
      totalBytes (clearCache fullState).store ≤ fullState.capacity ∧
      totalBytes ((prefetchStart 0 ["d"] fullState).1).store ≤ fullState.capacity ∧
      (∀ v, findVictim fullState.store = some v →
        ∀ x ∈ fullState.store, lruLess x v = false) ∧
      (∀ v, findVictim fullState.store = some v →
        (evictOnce fullState).store = eraseKey fullState.store v.1 ∧
        (evictOnce fullState).evictions = fullState.evictions + 1 ∧
        (evictOnce fullState).store.length + 1 ≤ fullState.store.length)) :=
  ⟨by decide,
   capacity_invariant_and_lru_eviction fullState "d" 0 (FetchOutcome.success 100)
     0 ["d"] (by decide)⟩

/-- C4: a fetch completion whose generation tag is older than the current
generation is discarded rather than committed — the store and every counter
are unchanged — `clearCache` increments the generation counter, a fetch
dispatched at the pre-clear generation that completes after the clear
therefore leaves the cleared store empty, and every fetch dispatched by a
valid prefetch call is registered in the InFlightSet tagged with the
generation current at dispatch time. -/
theorem generation_guard (s : ManagerState) (c : Nat) (icons : List String)
    (i : String) (g : Nat) (o : FetchOutcome) (hg : g < s.generation) :
    (fetchComplete i g o s).store = s.store ∧
    (fetchComplete i g o s).hits = s.hits ∧
    (fetchComplete i g o s).misses = s.misses ∧
    (fetchComplete i g o s).evictions = s.evictions ∧
    (clearCache s).generation = s.generation + 1 ∧
    (fetchComplete i s.generation o (clearCache s)).store = [] ∧
    (icons.all (fun j => isValidIdentifier j) = true →
      ∀ j ∈ dispatchOf icons s,
        ∃ e, e ∈ (prefetchStart c icons s).1.inFlight ∧
          e.icon = j ∧ e.gen = s.generation) := by
  have hne : g ≠ s.generation := Nat.ne_of_lt hg
  have hstale : fetchComplete i g o s =
      { s with inFlight := removeInFlight s.inFlight i g } := by
    unfold fetchComplete
    rw [if_neg hne]
  have hne2 : s.generation ≠ (clearCache s).generation :=
    Nat.ne_of_lt (Nat.lt_succ_self s.generation)
  have hstale2 : fetchComplete i s.generation o (clearCache s) =
      { clearCache s with
          inFlight := removeInFlight (clearCache s).inFlight i s.generation } := by
    unfold fetchComplete
    rw [if_neg hne2]
  refine ⟨by rw [hstale], by rw [hstale], by rw [hstale], by rw [hstale],
          rfl, by rw [hstale2]; rfl, ?_⟩
  intro hall j hj
  obtain ⟨-, -, -, -, -, -, hfl⟩ := prefetchStart_valid c icons s hall
  rw [hfl]
  exact ⟨⟨j, s.generation, [c]⟩,
         List.mem_append_left _ (List.mem_map_of_mem _ hj), rfl, rfl⟩

/-- Witness for C4: a fetch tagged with generation 0 completing after the
clear that took the manager to generation 1 is discarded. -/
theorem generation_guard_witness :
    0 < (clearCache sampleState).generation ∧
    ((fetchComplete "a" 0 FetchOutcome.failure (clearCache sampleState)).store =
        (clearCache sampleState).store ∧
      (fetchComplete "a" 0 FetchOutcome.failure (clearCache sampleState)).hits =
        (clearCache sampleState).hits ∧
      (fetchComplete "a" 0 FetchOutcome.failure (clearCache sampleState)).misses =
        (clearCache sampleState).misses ∧
      (fetchComplete "a" 0 FetchOutcome.failure (clearCache sampleState)).evictions =
        (clearCache sampleState).evictions ∧
      (clearCache (clearCache sampleState)).generation =
        (clearCache sampleState).generation + 1 ∧
      (fetchComplete "a" (clearCache sampleState).generation FetchOutcome.failure
        (clearCache (clearCache sampleState))).store = [] ∧
      (["b"].all (fun j => isValidIdentifier j) = true →
        ∀ j ∈ dispatchOf ["b"] (clearCache sampleState),
          ∃ e, e ∈ (prefetchStart 0 ["b"] (clearCache sampleState)).1.inFlight ∧
            e.icon = j ∧ e.gen = (clearCache sampleState).generation)) :=
  ⟨by decide,
   generation_guard (clearCache sampleState) 0 ["b"] "a" 0 FetchOutcome.failure
     (by decide)⟩

/-- C3: request coalescing — when a prefetch is started for an identifier
that is neither cached nor in flight, exactly that one fetch is dispatched;
a second prefetch for the same identifier started before the fetch
completes dispatches nothing (at most one fetch in flight per identifier)
and instead attaches the second caller to the existing in-flight wait
list, which then holds both callers. -/
theorem prefetch_coalesces (s : ManagerState) (a : String) (c1 c2 : Nat)
    (hval : isValidIdentifier a = true)
    (hnc : isCached s a = false)
    (hnf : inFlightMem s.inFlight a = false) :
    (prefetchStart c1 [a] s).2 = Except.ok [a] ∧
    (prefetchStart c2 [a] (prefetchStart c1 [a] s).1).2 = Except.ok [] ∧
    (∃ e, e ∈ (prefetchStart c2 [a] (prefetchStart c1 [a] s).1).1.inFlight ∧
      e.icon = a ∧ c1 ∈ e.waiters ∧ c2 ∈ e.waiters) := by
  have hall : ([a] : List String).all (fun i => isValidIdentifier i) = true := by
    simp [hval]
  have hded : ([a] : List String).dedup = [a] :=
    List.dedup_eq_self.mpr (List.nodup_singleton a)
  obtain ⟨h2, hstore, hgen, -, -, -, hfl⟩ := prefetchStart_valid c1 [a] s hall
  have hd1 : dispatchOf [a] s = [a] := by
    simp [dispatchOf, hded, hnc, hnf]
  have hatt : attachOf c1 [a] s = s.inFlight := by
    simp [attachOf, hded, hnc, hnf]
  have hfl1 : (prefetchStart c1 [a] s).1.inFlight =
      ⟨a, s.generation, [c1]⟩ :: s.inFlight := by
    rw [hfl, hd1, hatt]
    rfl
  have hnc1 : isCached (prefetchStart c1 [a] s).1 a = false := by
    show (lookupEntry (prefetchStart c1 [a] s).1.store a).isSome = false
    rw [hstore]
    exact hnc
  have hmf1 : inFlightMem (prefetchStart c1 [a] s).1.inFlight a = true := by
    rw [hfl1]
    simp [inFlightMem]
  obtain ⟨h2', hstore', -, -, -, -, hfl'⟩ :=
    prefetchStart_valid c2 [a] (prefetchStart c1 [a] s).1 hall
  have hd2 : dispatchOf [a] (prefetchStart c1 [a] s).1 = [] := by
    simp [dispatchOf, hded, hnc1, hmf1]
  have hatt2 : attachOf c2 [a] (prefetchStart c1 [a] s).1 =
      attachWaiter (prefetchStart c1 [a] s).1.inFlight a c2 := by
    simp [attachOf, hded, hnc1, hmf1]
  have hfl2 : (prefetchStart c2 [a] (prefetchStart c1 [a] s).1).1.inFlight =
      attachWaiter (prefetchStart c1 [a] s).1.inFlight a c2 := by
    rw [hfl', hd2, hatt2]
    rfl
  refine ⟨by rw [h2, hd1], by rw [h2', hd2], ?_⟩
  refine ⟨⟨a, s.generation, [c2, c1]⟩, ?_, rfl, by simp, by simp⟩
  rw [hfl2, hfl1]
  simp [attachWaiter]

/-- Witness for C3: two callers prefetching "a" on a fresh manager. -/
theorem prefetch_coalesces_witness :
    (isValidIdentifier "a" = true ∧ isCached cexState "a" = false ∧
      inFlightMem cexState.inFlight "a" = false) ∧
    ((prefetchStart 1 ["a"] cexState).2 = Except.ok ["a"] ∧
      (prefetchStart 2 ["a"] (prefetchStart 1 ["a"] cexState).1).2 = Except.ok [] ∧
      (∃ e, e ∈ (prefetchStart 2 ["a"] (prefetchStart 1 ["a"] cexState).1).1.inFlight ∧
        e.icon = "a" ∧ 1 ∈ e.waiters ∧ 2 ∈ e.waiters)) :=
  ⟨⟨by decide, by decide, by decide⟩,
   prefetch_coalesces cexState "a" 1 2 (by decide) (by decide) (by decide)⟩

/-- C1 counterexample, in two parts.  First: on a freshly initialized
manager with a 100-byte capacity bound, `prefetchIcons ["a", "b"]` with
both fetches succeeding at 100 bytes each resolves successfully, yet
`isCached "a"` is false afterwards — committing "b" forced the capacity
eviction of the just-committed entry "a".  Second: in the reachable state
where a fetch for "a" was dispatched and the cache was then cleared, a new
`prefetchIcons ["a"]` coalesces onto the stale in-flight fetch; that fetch
succeeds but its commit is discarded as stale (per the spec's own clear
semantics), so the call resolves successfully with `isCached "a"` false.
The claim as stated fails in both runs. -/
theorem prefetch_success_not_always_cached_cex :
    ((prefetchRun 0 ["a", "b"] outcomesAll100 cexState).2 = Except.ok () ∧
      "a" ∈ ["a", "b"] ∧
      isValidIdentifier "a" = true ∧ isValidIdentifier "b" = true ∧
      outcomesAll100 "a" = FetchOutcome.success 100 ∧
      isCached (prefetchRun 0 ["a", "b"] outcomesAll100 cexState).1 "a" = false) ∧
    ((prefetchRun 2 ["a"] outcomesAll100 staleState).2 = Except.ok () ∧
      "a" ∈ ["a"] ∧
      outcomesAll100 "a" = FetchOutcome.success 100 ∧
      isCached (prefetchRun 2 ["a"] outcomesAll100 staleState).1 "a" = false) := by
  refine ⟨⟨rfl, by decide, by decide, by decide, rfl, by decide⟩,
          ⟨rfl, by decide, rfl, by decide⟩⟩

/-- C1 (amended): for every valid input sequence, after the prefetch call
resolves successfully every identifier whose individual fetch succeeded is
reported cached, provided the successfully fetched bytes fit within the
capacity bound together with the existing cache contents (so no entry of
the batch is evicted again before the call resolves) and the fetch the
identifier awaited carries the current generation (a stale pre-clear fetch
is discarded on completion rather than committed). -/
theorem prefetch_success_cached_amended (c : Nat) (icons : List String)
    (outcomes : String → FetchOutcome) (s : ManagerState) (i : String)
    (hall : icons.all (fun j => isValidIdentifier j) = true)
    (hfatal : s.fatalMode = false)
    (hfit : totalBytes s.store +
      fetchedBytes outcomes (pendingOf icons s) ≤ s.capacity)
    (hi : i ∈ icons)
    (hsucc : ∃ n, outcomes i = FetchOutcome.success n)
    (hgen : genOf s.inFlight i s.generation = s.generation) :
    (prefetchRun c icons outcomes s).2 = Except.ok () ∧
    isCached (prefetchRun c icons outcomes s).1 i = true := by
  obtain ⟨h2, hstore, hgen1, hcap, hfm, hmiss, hfl⟩ := prefetchStart_valid c icons s hall
  have hps : prefetchStart c icons s =
      ((prefetchStart c icons s).1, Except.ok (dispatchOf icons s)) := by
    rw [← h2]
  have hrun2 : prefetchRun c icons outcomes s =
      (runPending (fun j => genOf (prefetchStart c icons s).1.inFlight j
          (prefetchStart c icons s).1.generation) outcomes
        (pendingOf icons s) (prefetchStart c icons s).1, Except.ok ()) := by
    unfold prefetchRun
    rw [hps]
    simp [hfatal]
  rw [hrun2]
  refine ⟨rfl, ?_⟩
  by_cases hci : isCached s i = true
  · refine runPending_commits _ outcomes (pendingOf icons s) _
      (pendingOf_nodup icons s) ?_ i (Or.inl ⟨?_, fun hmem => ?_⟩)
    · show totalBytes (prefetchStart c icons s).1.store +
        fetchedBytes outcomes (pendingOf icons s) ≤ (prefetchStart c icons s).1.capacity
      rw [hstore, hcap]
      exact hfit
    · show (lookupEntry (prefetchStart c icons s).1.store i).isSome = true
      rw [hstore]
      exact hci
    · have := ((mem_pendingOf icons s i).mp hmem).2
      rw [hci] at this
      cases this
  · have hcif : isCached s i = false := Bool.eq_false_iff.mpr hci
    have hgeni : genOf (prefetchStart c icons s).1.inFlight i
        (prefetchStart c icons s).1.generation =
        (prefetchStart c icons s).1.generation := by
      rw [hfl, hgen1]
      by_cases hfi : inFlightMem s.inFlight i = true
      · have hskip : ∀ e ∈ (dispatchOf icons s).map
            (fun j => InFlightEntry.mk j s.generation [c]), e.icon ≠ i := by
          intro e he
          obtain ⟨j', hj', rfl⟩ := List.mem_map.mp he
          intro hic
          have hflj : inFlightMem s.inFlight j' = false :=
            ((mem_dispatchOf icons s j').mp hj').2.2
          have hj'i : j' = i := hic
          rw [hj'i] at hflj
          rw [hflj] at hfi
          cases hfi
        rw [genOf_append_skip _ _ i s.generation hskip]
        show genOf (attachOf c icons s) i s.generation = s.generation
        unfold attachOf
        rw [genOf_attachFold]
        exact hgen
      · have hmemd : i ∈ dispatchOf icons s :=
          (mem_dispatchOf icons s i).mpr ⟨hi, hcif, Bool.eq_false_iff.mpr hfi⟩
        exact genOf_map_found s.generation c (dispatchOf icons s)
          (attachOf c icons s) i s.generation hmemd
    refine runPending_commits _ outcomes (pendingOf icons s) _
      (pendingOf_nodup icons s) ?_ i
      (Or.inr ⟨(mem_pendingOf icons s i).mpr ⟨hi, hcif⟩, hgeni, hsucc⟩)
    show totalBytes (prefetchStart c icons s).1.store +
      fetchedBytes outcomes (pendingOf icons s) ≤ (prefetchStart c icons s).1.capacity
    rw [hstore, hcap]
    exact hfit

/-- Witness for the amended C1: a single 100-byte fetch that exactly fits
the 100-byte capacity bound of a fresh manager, awaited at the current
generation. -/
theorem prefetch_success_cached_amended_witness :
    ((["y"] : List String).all (fun j => isValidIdentifier j) = true ∧
      cexState.fatalMode = false ∧
      totalBytes cexState.store +
        fetchedBytes outcomesXY (pendingOf ["y"] cexState) ≤ cexState.capacity ∧
      "y" ∈ ["y"] ∧ (∃ n, outcomesXY "y" = FetchOutcome.success n) ∧
      genOf cexState.inFlight "y" cexState.generation = cexState.generation) ∧
    ((prefetchRun 0 ["y"] outcomesXY cexState).2 = Except.ok () ∧
      isCached (prefetchRun 0 ["y"] outcomesXY cexState).1 "y" = true) :=
  ⟨⟨by decide, rfl, by decide, by decide, ⟨100, by decide⟩, rfl⟩,
   prefetch_success_cached_amended 0 ["y"] outcomesXY cexState "y" (by decide) rfl
     (by decide) (by decide) ⟨100, by decide⟩ rfl⟩

/-- C6: the prefetch call resolves only once every identifier of its input
has reached a terminal state — the resolved state is exactly the state
after the completion of every pending (non-cached) input identifier has
been delivered, and every input identifier is either cached at start or
among those awaited — and, with fatal mode off, a batch
`prefetchIcons [x, y]` whose fetch for x fails while y succeeds still
resolves successfully (per-identifier failures are collected, not fatal);
afterwards every input identifier is terminal (cached or failed),
`isCached x` is false, `isCached y` is true, and the cumulative miss
counter reflects the one failed fetch. -/
theorem prefetch_partial_failure (c : Nat) (x y : String)
    (outcomes : String → FetchOutcome) (s : ManagerState)
    (hxy : x ≠ y)
    (hvx : isValidIdentifier x = true) (hvy : isValidIdentifier y = true)
    (hfatal : s.fatalMode = false)
    (hox : outcomes x = FetchOutcome.failure)
    (hoy : ∃ n, outcomes y = FetchOutcome.success n)
    (hncx : isCached s x = false) (hncy : isCached s y = false)
    (hfx : inFlightMem s.inFlight x = false)
    (hfy : inFlightMem s.inFlight y = false)
    (hfit : totalBytes s.store +
      fetchedBytes outcomes (pendingOf [x, y] s) ≤ s.capacity) :
    (prefetchRun c [x, y] outcomes s).2 = Except.ok () ∧
    (prefetchRun c [x, y] outcomes s).1 =
      runPending (fun j => genOf (prefetchStart c [x, y] s).1.inFlight j
          (prefetchStart c [x, y] s).1.generation) outcomes
        (pendingOf [x, y] s) (prefetchStart c [x, y] s).1 ∧
    (∀ j, j ∈ ([x, y] : List String) →
      isCached s j = true ∨ j ∈ pendingOf [x, y] s) ∧
    (∀ j, j ∈ ([x, y] : List String) →
      isCached (prefetchRun c [x, y] outcomes s).1 j = true ∨
        outcomes j = FetchOutcome.failure) ∧
    isCached (prefetchRun c [x, y] outcomes s).1 x = false ∧
    isCached (prefetchRun c [x, y] outcomes s).1 y = true ∧
    (prefetchRun c [x, y] outcomes s).1.misses = s.misses + 1 := by
  have hall : ([x, y] : List String).all (fun j => isValidIdentifier j) = true := by
    simp [hvx, hvy]
  obtain ⟨h2, hstore, hgen1, hcap, hfm, hmiss, hfl⟩ :=
    prefetchStart_valid c [x, y] s hall
  have hps : prefetchStart c [x, y] s =
      ((prefetchStart c [x, y] s).1, Except.ok (dispatchOf [x, y] s)) := by
    rw [← h2]
  have hrun2 : prefetchRun c [x, y] outcomes s =
      (runPending (fun j => genOf (prefetchStart c [x, y] s).1.inFlight j
          (prefetchStart c [x, y] s).1.generation) outcomes
        (pendingOf [x, y] s) (prefetchStart c [x, y] s).1, Except.ok ()) := by
    unfold prefetchRun
    rw [hps]
    simp [hfatal]
  have hnd : ([x, y] : List String).Nodup := by simp [hxy]
  have hded : ([x, y] : List String).dedup = [x, y] := List.dedup_eq_self.mpr hnd
  have hpend : pendingOf [x, y] s = [x, y] := by
    simp [pendingOf, hded, hncx, hncy]
  have hdOf : dispatchOf [x, y] s = [x, y] := by
    simp [dispatchOf, hded, hncx, hncy, hfx, hfy]
  have hgx : genOf (prefetchStart c [x, y] s).1.inFlight x
      (prefetchStart c [x, y] s).1.generation =
      (prefetchStart c [x, y] s).1.generation := by
    rw [hfl, hgen1]
    exact genOf_map_found s.generation c (dispatchOf [x, y] s)
      (attachOf c [x, y] s) x s.generation (by rw [hdOf]; simp)
  have hgy : genOf (prefetchStart c [x, y] s).1.inFlight y
      (prefetchStart c [x, y] s).1.generation =
      (prefetchStart c [x, y] s).1.generation := by
    rw [hfl, hgen1]
    exact genOf_map_found s.generation c (dispatchOf [x, y] s)
      (attachOf c [x, y] s) y s.generation (by rw [hdOf]; simp)
  have hccx : isCached (runPending
      (fun j => genOf (prefetchStart c [x, y] s).1.inFlight j
        (prefetchStart c [x, y] s).1.generation) outcomes [x, y]
      (prefetchStart c [x, y] s).1) x = false := by
    refine runPending_not_cached _ outcomes [x, y] _ x hox ?_
    show (lookupEntry (prefetchStart c [x, y] s).1.store x).isSome = false
    rw [hstore]
    exact hncx
  have hccy : isCached (runPending
      (fun j => genOf (prefetchStart c [x, y] s).1.inFlight j
        (prefetchStart c [x, y] s).1.generation) outcomes [x, y]
      (prefetchStart c [x, y] s).1) y = true := by
    refine runPending_commits _ outcomes [x, y] _ hnd ?_ y
      (Or.inr ⟨by simp, hgy, hoy⟩)
    show totalBytes (prefetchStart c [x, y] s).1.store +
      fetchedBytes outcomes [x, y] ≤ (prefetchStart c [x, y] s).1.capacity
    rw [hpend] at hfit
    rw [hstore, hcap]
    exact hfit
  have hmisses : (runPending
      (fun j => genOf (prefetchStart c [x, y] s).1.inFlight j
        (prefetchStart c [x, y] s).1.generation) outcomes [x, y]
      (prefetchStart c [x, y] s).1).misses = s.misses + 1 := by
    obtain ⟨n, hyn⟩ := hoy
    show (fetchComplete y (genOf (prefetchStart c [x, y] s).1.inFlight y
        (prefetchStart c [x, y] s).1.generation) (outcomes y)
      (fetchComplete x (genOf (prefetchStart c [x, y] s).1.inFlight x
        (prefetchStart c [x, y] s).1.generation) (outcomes x)
        (prefetchStart c [x, y] s).1)).misses = s.misses + 1
    rw [hgx, hgy]
    have hfcx : fetchComplete x (prefetchStart c [x, y] s).1.generation (outcomes x)
        (prefetchStart c [x, y] s).1 =
        { (prefetchStart c [x, y] s).1 with
            inFlight := removeInFlight (prefetchStart c [x, y] s).1.inFlight x
              (prefetchStart c [x, y] s).1.generation,
            misses := (prefetchStart c [x, y] s).1.misses + 1 } := by
      rw [hox]
      unfold fetchComplete
      rw [if_pos rfl]
    have h1g : (fetchComplete x (prefetchStart c [x, y] s).1.generation (outcomes x)
        (prefetchStart c [x, y] s).1).generation =
        (prefetchStart c [x, y] s).1.generation :=
      (fetchComplete_fields x _ (outcomes x) _).1
    have h1m : (fetchComplete x (prefetchStart c [x, y] s).1.generation (outcomes x)
        (prefetchStart c [x, y] s).1).misses =
        (prefetchStart c [x, y] s).1.misses + 1 := by
      rw [hfcx]
    have hfcy : ∀ st : ManagerState,
        st.generation = (prefetchStart c [x, y] s).1.generation →
        fetchComplete y (prefetchStart c [x, y] s).1.generation
            (FetchOutcome.success n) st =
          runEviction { st with
            store := insertEntry st.store y ⟨n, st.clock, st.clock⟩,
            inFlight := removeInFlight st.inFlight y
              (prefetchStart c [x, y] s).1.generation,
            clock := st.clock + 1 } := by
      intro st hst
      unfold fetchComplete
      rw [if_pos hst.symm]
    rw [hyn, hfcy _ h1g]
    rw [(runEviction_fields _).2.2.2.1]
    show (fetchComplete x (prefetchStart c [x, y] s).1.generation (outcomes x)
      (prefetchStart c [x, y] s).1).misses = s.misses + 1
    rw [h1m, hmiss]
  rw [hrun2, hpend]
  refine ⟨rfl, rfl, ?_, ?_, hccx, hccy, hmisses⟩
  · intro j hj
    exact Or.inr hj
  · intro j hj
    rcases List.mem_cons.mp hj with rfl | hj'
    · exact Or.inr hox
    · have hjy : j = y := by simpa using hj'
      rw [hjy]
      exact Or.inl hccy

/-- Witness for C6: the spec's own scenario — "x" fails, "y" succeeds. -/
theorem prefetch_partial_failure_witness :
    (("x" : String) ≠ "y" ∧ isValidIdentifier "x" = true ∧
      isValidIdentifier "y" = true ∧ sampleState.fatalMode = false ∧
      outcomesXY "x" = FetchOutcome.failure ∧
      (∃ n, outcomesXY "y" = FetchOutcome.success n) ∧
      isCached sampleState "x" = false ∧ isCached sampleState "y" = false ∧
      inFlightMem sampleState.inFlight "x" = false ∧
      inFlightMem sampleState.inFlight "y" = false ∧
      totalBytes sampleState.store +
        fetchedBytes outcomesXY (pendingOf ["x", "y"] sampleState) ≤
          sampleState.capacity) ∧
    ((prefetchRun 0 ["x", "y"] outcomesXY sampleState).2 = Except.ok () ∧
      (prefetchRun 0 ["x", "y"] outcomesXY sampleState).1 =
        runPending (fun j => genOf (prefetchStart 0 ["x", "y"] sampleState).1.inFlight j
            (prefetchStart 0 ["x", "y"] sampleState).1.generation) outcomesXY
          (pendingOf ["x", "y"] sampleState) (prefetchStart 0 ["x", "y"] sampleState).1 ∧
      (∀ j, j ∈ (["x", "y"] : List String) →
        isCached sampleState j = true ∨ j ∈ pendingOf ["x", "y"] sampleState) ∧
      (∀ j, j ∈ (["x", "y"] : List String) →
        isCached (prefetchRun 0 ["x", "y"] outcomesXY sampleState).1 j = true ∨
          outcomesXY j = FetchOutcome.failure) ∧
      isCached (prefetchRun 0 ["x", "y"] outcomesXY sampleState).1 "x" = false ∧
      isCached (prefetchRun 0 ["x", "y"] outcomesXY sampleState).1 "y" = true ∧
      (prefetchRun 0 ["x", "y"] outcomesXY sampleState).1.misses =
        sampleState.misses + 1) :=
  ⟨⟨by decide, by decide, by decide, rfl, by decide, ⟨100, by decide⟩,
    by decide, by decide, rfl, rfl, by decide⟩,
   prefetch_partial_failure 0 "x" "y" outcomesXY sampleState (by decide)
     (by decide) (by decide) rfl (by decide) ⟨100, by decide⟩ (by decide)
     (by decide) rfl rfl (by decide)⟩

end RNIconify
